import Mathlib

/-!
Shallow embedding of `src/gpu-temperature-aio-controller.py`
(class `GPUCoolingController`) and proofs about its control policy,
sensor reading, snapshot capture/restore and stop logic.

Python integers are modelled as `Int`; the PWM setpoint lists as
`List Int`.  Hardware I/O (file writes that may raise) is modelled by
explicit success oracles (`Bool` per write); the values pushed to the
hardware are recorded in a `Write` list.
-/

namespace AIO

/-- Configuration fields of `GPUCoolingController.__init__`
(`temp_threshold`, `min_pump_pwm`, `max_pump_pwm`, `min_fan_pwm`,
`max_fan_pwm`, `pwm_step`).  Immutable after construction. -/
structure Config where
  temp_threshold : Int
  min_pump_pwm : Int
  max_pump_pwm : Int
  min_fan_pwm : Int
  max_fan_pwm : Int
  pwm_step : Int
  deriving Repr, DecidableEq

/-- The mutable setpoint state of the controller:
`self.current_pump_pwm` and `self.current_fan_pwms`. -/
structure CState where
  current_pump_pwm : Int
  current_fan_pwms : List Int
  deriving Repr, DecidableEq

/-- A record of one value pushed to a PWM duty-cycle register:
the `f.write(str(value))` calls in `set_pump_pwm` / `set_fan_pwm`. -/
inductive Write where
  | pump (value : Int)
  | fan (index : Nat) (value : Int)
  deriving Repr, DecidableEq

/-- The bounds a `Write`'s value must satisfy (pump bounds for pump
writes, fan bounds for fan writes). -/
def Write.inBounds (cfg : Config) : Write → Prop
  | .pump v => cfg.min_pump_pwm ≤ v ∧ v ≤ cfg.max_pump_pwm
  | .fan _ v => cfg.min_fan_pwm ≤ v ∧ v ≤ cfg.max_fan_pwm

instance (cfg : Config) (w : Write) : Decidable (w.inBounds cfg) := by
  cases w <;> simp [Write.inBounds] <;> infer_instance

/-- `set_pump_pwm(self, value)`: clamp `value` into
`[min_pump_pwm, max_pump_pwm]`, write it to the pump PWM register and,
if the write succeeds (`ok`), store it in `current_pump_pwm`
(on an exception the state update is skipped and `False` is returned).
Returns the updated state and the value written. -/
def set_pump_pwm (cfg : Config) (s : CState) (value : Int) (ok : Bool) :
    CState × Int :=
  let v := if value < cfg.min_pump_pwm then cfg.min_pump_pwm
    else if value > cfg.max_pump_pwm then cfg.max_pump_pwm
    else value
  (if ok then { s with current_pump_pwm := v } else s, v)

/-- `set_fan_pwm(self, fan_index, value)`: clamp `value` into
`[min_fan_pwm, max_fan_pwm]`, write it to fan `i`'s PWM register and,
if the write succeeds (`ok`), store it in `current_fan_pwms[i]`. -/
def set_fan_pwm (cfg : Config) (s : CState) (i : Nat) (value : Int) (ok : Bool) :
    CState × Int :=
  let v := if value < cfg.min_fan_pwm then cfg.min_fan_pwm
    else if value > cfg.max_fan_pwm then cfg.max_fan_pwm
    else value
  (if ok then { s with current_fan_pwms := s.current_fan_pwms.set i v } else s, v)

/-- The fan loop of the increase branch of `adjust_cooling`
(`for i in range(len(self.fan_devices))`): for each index `i`,
`new_fan_pwm = min(self.current_fan_pwms[i] + fan_increase, self.max_fan_pwm)`,
and `set_fan_pwm(i, new_fan_pwm)` is called only if it is strictly
greater than the current value. -/
def increaseFansLoop (cfg : Config) (fan_increase : Int) (oks : Nat → Bool) :
    CState → List Nat → CState × List Write
  | s, [] => (s, [])
  | s, i :: is =>
    let cur := s.current_fan_pwms.getD i 0
    let new_fan_pwm := min (cur + fan_increase) cfg.max_fan_pwm
    if new_fan_pwm > cur then
      let p := set_fan_pwm cfg s i new_fan_pwm (oks i)
      let r := increaseFansLoop cfg fan_increase oks p.1 is
      (r.1, .fan i p.2 :: r.2)
    else
      increaseFansLoop cfg fan_increase oks s is

/-- The fan loop of the decrease branch of `adjust_cooling`: for each
index `i` with `current_fan_pwms[i] > min_fan_pwm`,
`new_fan_pwm = max(current_fan_pwms[i] - pwm_step, min_fan_pwm)` and
`set_fan_pwm(i, new_fan_pwm)` is called. -/
def decreaseFansLoop (cfg : Config) (oks : Nat → Bool) :
    CState → List Nat → CState × List Write
  | s, [] => (s, [])
  | s, i :: is =>
    let cur := s.current_fan_pwms.getD i 0
    if cur > cfg.min_fan_pwm then
      let p := set_fan_pwm cfg s i (max (cur - cfg.pwm_step) cfg.min_fan_pwm) (oks i)
      let r := decreaseFansLoop cfg oks p.1 is
      (r.1, .fan i p.2 :: r.2)
    else
      decreaseFansLoop cfg oks s is

/-- `adjust_cooling(self, temp)` for a non-`None` integer temperature.
`nFans = len(self.fan_devices)`.  `pumpOk` / `oks i` tell whether the
corresponding hardware write succeeds.  Returns the new state and the
list of values written.  Mirrors the source exactly:
increase branch uses `pwm_increase = (excess_temp // 5 + 1) * pwm_step`
(Python floor division → `Int.fdiv`) and
`fan_increase = int(pwm_increase * 1.5)` (truncation of `3/2` of an
integer, exact in double precision for the representable range →
`Int.tdiv (3 * pwm_increase) 2`, truncated division). -/
def adjust_cooling (cfg : Config) (nFans : Nat) (pumpOk : Bool) (oks : Nat → Bool)
    (s : CState) (temp : Int) : CState × List Write :=
  if temp > cfg.temp_threshold then
    let excess_temp := temp - cfg.temp_threshold
    let pwm_increase := (Int.fdiv excess_temp 5 + 1) * cfg.pwm_step
    let new_pump_pwm := min (s.current_pump_pwm + pwm_increase) cfg.max_pump_pwm
    let pr :=
      if new_pump_pwm > s.current_pump_pwm then
        let p := set_pump_pwm cfg s new_pump_pwm pumpOk
        (p.1, [Write.pump p.2])
      else (s, [])
    let fan_increase := Int.tdiv (3 * pwm_increase) 2
    let fr := increaseFansLoop cfg fan_increase oks pr.1 (List.range nFans)
    (fr.1, pr.2 ++ fr.2)
  else if temp < cfg.temp_threshold - 10 then
    let pr :=
      if s.current_pump_pwm > cfg.min_pump_pwm then
        let p := set_pump_pwm cfg s
          (max (s.current_pump_pwm - cfg.pwm_step) cfg.min_pump_pwm) pumpOk
        (p.1, [Write.pump p.2])
      else (s, [])
    let fr := decreaseFansLoop cfg oks pr.1 (List.range nFans)
    (fr.1, pr.2 ++ fr.2)
  else
    (s, [])

/-- One control tick of the `start` loop body: when the temperature
read returned `None` the tick is skipped (`if temp is not None`),
otherwise `adjust_cooling(temp)` runs. -/
def control_tick (cfg : Config) (nFans : Nat) (pumpOk : Bool) (oks : Nat → Bool)
    (s : CState) (temp : Option Int) : CState × List Write :=
  match temp with
  | none => (s, [])
  | some t => adjust_cooling cfg nFans pumpOk oks s t

/-! ## Sensor source: `get_gpu_temp` -/

/-- The exceptions that can escape `get_gpu_temp`: only `ValueError`
from `int(...)` (the `except` clause catches `CalledProcessError`). -/
inductive PyErr where
  | valueError
  deriving Repr, DecidableEq

/-- Python whitespace (the characters `str.strip` removes). -/
def isPySpace (c : Char) : Bool :=
  c == ' ' || c == '\t' || c == '\n' || c == '\r' ||
  c == (Char.ofNat 11) || c == (Char.ofNat 12)

/-- Python `str.split('\n')` over the character list: the empty string
yields `[""]`, a trailing newline yields a trailing empty piece. -/
def splitNL : List Char → List Char → List (List Char)
  | acc, [] => [acc.reverse]
  | acc, c :: cs =>
    if c = '\n' then acc.reverse :: splitNL [] cs
    else splitNL (c :: acc) cs

/-- Python `str.strip()`: drop whitespace from both ends. -/
def pyStrip (cs : List Char) : List Char :=
  ((cs.dropWhile isPySpace).reverse.dropWhile isPySpace).reverse

/-- A run of decimal digits parsed to a `Nat`; `none` when empty or
when a non-digit character occurs. -/
def parseDigits (cs : List Char) : Option Nat :=
  if !cs.isEmpty && cs.all Char.isDigit then
    some (cs.foldl (fun a c => 10 * a + (c.toNat - 48)) 0)
  else
    none

/-- Python `int(str)` on the inputs relevant here: strips surrounding
whitespace, then an optional sign followed by one or more decimal
digits; anything else raises `ValueError` (`none`).  (Python also
accepts underscore digit separators and non-ASCII digits; those inputs
do not occur in this development and are modelled as failures.) -/
def parsePyInt (cs : List Char) : Option Int :=
  match pyStrip cs with
  | '+' :: rest => (parseDigits rest).map Int.ofNat
  | '-' :: rest => (parseDigits rest).map (fun n => -(Int.ofNat n))
  | ds => (parseDigits ds).map Int.ofNat

/-- The token list `get_gpu_temp` feeds to `int`: split stdout on
newlines and keep the pieces whose `strip()` is non-empty
(`if temp.strip()`). -/
def gpuTempTokens (stdout : String) : List (List Char) :=
  (splitNL [] stdout.toList).filter (fun t => !(pyStrip t).isEmpty)

/-- `get_gpu_temp(self)`.  The `nvidia-smi` query is modelled by its
outcome: `.error ()` for a `CalledProcessError` (caught: log, return
`None`), `.ok stdout` for a successful run.  On success the code does
`temps = [int(t.strip()) for t in result.stdout.split('\n') if t.strip()]`
— a `ValueError` from `int` is not caught and propagates — then
returns `None` if `temps` is empty and `max(temps)` otherwise. -/
def get_gpu_temp (query : Except Unit String) : Except PyErr (Option Int) :=
  match query with
  | .error _ => .ok none
  | .ok stdout =>
    match (gpuTempTokens stdout).mapM (fun t => parsePyInt (pyStrip t)) with
    | none => .error .valueError
    | some temps =>
      if temps.isEmpty then .ok none
      else .ok temps.max?

instance {ε α : Type} [DecidableEq ε] [DecidableEq α] :
    DecidableEq (Except ε α) := fun x y =>
  match x, y with
  | .ok a, .ok b =>
    if h : a = b then .isTrue (by rw [h]) else .isFalse (by simp [h])
  | .error a, .error b =>
    if h : a = b then .isTrue (by rw [h]) else .isFalse (by simp [h])
  | .ok _, .error _ => .isFalse (by simp)
  | .error _, .ok _ => .isFalse (by simp)

/-! ## Snapshot capture and restore, `stop` -/

/-- The device set of a controller instance.  Devices are abstract
identifiers (`Nat`).  `pump_enable` / the second component of each fan
is the `pwmN_enable` companion register when `os.path.exists` holds
for it, `none` otherwise. -/
structure Devices where
  pump_device : Nat
  pump_enable : Option Nat
  fans : List (Nat × Option Nat)
  deriving Repr, DecidableEq

/-- The order in which `backup_original_settings` reads registers:
pump enable (if present), pump device, then for each fan its device
followed by its enable (if present). -/
def readOrder (d : Devices) : List Nat :=
  (match d.pump_enable with | some e => [e] | none => []) ++
  [d.pump_device] ++
  d.fans.flatMap (fun f =>
    f.1 :: (match f.2 with | some e => [e] | none => []))

/-- The body of `backup_original_settings`: read the registers in
order, storing each value into `self.original_settings`.  The whole
loop sits inside one `try`, so the first failing read raises out of
the loop (the outer `except` logs it) and the registers after it are
never read: the captured snapshot is the prefix of successful reads.
`read dev = none` models an `IOError` on that register. -/
def captureReads (read : Nat → Option String) : List Nat → List (Nat × String)
  | [] => []
  | dev :: rest =>
    match read dev with
    | none => []
    | some v => (dev, v) :: captureReads read rest

/-- `backup_original_settings(self)`: capture `readOrder` with one
surrounding `try`/`except` (exception logged, method returns with the
partially filled `self.original_settings`). -/
def backup_original_settings (read : Nat → Option String) (d : Devices) :
    List (Nat × String) :=
  captureReads read (readOrder d)

/-- `restore_original_settings(self)`: iterate over every
`(device, value)` of `self.original_settings`; each write sits in its
own inner `try`/`except` (a failure is logged and the loop continues),
so every entry is attempted.  `ok dev` models whether writing `dev`
succeeds; `hw` is the register state.  Returns the resulting register
state and the list of devices for which a write was attempted. -/
def restore_original_settings (ok : Nat → Bool) (hw : Nat → String) :
    List (Nat × String) → (Nat → String) × List Nat
  | [] => (hw, [])
  | (dev, val) :: rest =>
    let hw' := if ok dev then (fun x => if x = dev then val else hw x) else hw
    let r := restore_original_settings ok hw' rest
    (r.1, dev :: r.2)

/-- The lifecycle state relevant to `stop`: `self.running` and
`self.original_settings`. -/
structure LoopState where
  running : Bool
  original_settings : List (Nat × String)
  deriving Repr, DecidableEq

/-- `stop(self)`: set `running = False` and call
`restore_original_settings` (which never raises).  Takes and returns
the hardware register state alongside the controller state. -/
def stop (ok : Nat → Bool) (s : LoopState) (hw : Nat → String) :
    LoopState × (Nat → String) :=
  ({ s with running := false },
   (restore_original_settings ok hw s.original_settings).1)

/-! ## Helper functions and structural lemmas -/

/-- The clamp performed at the top of `set_fan_pwm`. -/
def clampFan (cfg : Config) (v : Int) : Int :=
  if v < cfg.min_fan_pwm then cfg.min_fan_pwm
  else if v > cfg.max_fan_pwm then cfg.max_fan_pwm
  else v

/-- The clamp performed at the top of `set_pump_pwm`. -/
def clampPump (cfg : Config) (v : Int) : Int :=
  if v < cfg.min_pump_pwm then cfg.min_pump_pwm
  else if v > cfg.max_pump_pwm then cfg.max_pump_pwm
  else v

theorem set_fan_pwm_eq (cfg : Config) (s : CState) (i : Nat) (v : Int) (ok : Bool) :
    set_fan_pwm cfg s i v ok =
      (if ok then { s with current_fan_pwms := s.current_fan_pwms.set i (clampFan cfg v) }
       else s, clampFan cfg v) := rfl

theorem set_pump_pwm_eq (cfg : Config) (s : CState) (v : Int) (ok : Bool) :
    set_pump_pwm cfg s v ok =
      (if ok then { s with current_pump_pwm := clampPump cfg v } else s,
       clampPump cfg v) := rfl

theorem clampFan_range (cfg : Config) (h : cfg.min_fan_pwm ≤ cfg.max_fan_pwm)
    (v : Int) : cfg.min_fan_pwm ≤ clampFan cfg v ∧ clampFan cfg v ≤ cfg.max_fan_pwm := by
  unfold clampFan; split <;> [omega; (split <;> omega)]

theorem clampPump_range (cfg : Config) (h : cfg.min_pump_pwm ≤ cfg.max_pump_pwm)
    (v : Int) : cfg.min_pump_pwm ≤ clampPump cfg v ∧ clampPump cfg v ≤ cfg.max_pump_pwm := by
  unfold clampPump; split <;> [omega; (split <;> omega)]

/-- A clamp on a value already inside the bounds is the identity. -/
theorem clampFan_of_inside (cfg : Config) (v : Int)
    (h1 : cfg.min_fan_pwm ≤ v) (h2 : v ≤ cfg.max_fan_pwm) : clampFan cfg v = v := by
  unfold clampFan; split <;> [omega; (split <;> omega)]

theorem clampPump_of_inside (cfg : Config) (v : Int)
    (h1 : cfg.min_pump_pwm ≤ v) (h2 : v ≤ cfg.max_pump_pwm) : clampPump cfg v = v := by
  unfold clampPump; split <;> [omega; (split <;> omega)]

/-- What one iteration of the increase fan loop does to the fan at its
own index: `min (cur + inc) max_fan_pwm` stored (clamped) when
strictly above the current value, otherwise untouched. -/
def incStep (cfg : Config) (inc : Int) (ok : Bool) (cur : Int) : Int :=
  if min (cur + inc) cfg.max_fan_pwm > cur then
    (if ok then clampFan cfg (min (cur + inc) cfg.max_fan_pwm) else cur)
  else cur

/-- The write the increase fan loop issues for index `i`, as a
function of the fan list at loop entry. -/
def incWriteAt (cfg : Config) (inc : Int) (fans : List Int) (i : Nat) : Option Write :=
  let cur := fans.getD i 0
  if min (cur + inc) cfg.max_fan_pwm > cur then
    some (.fan i (clampFan cfg (min (cur + inc) cfg.max_fan_pwm)))
  else none

/-- What one iteration of the decrease fan loop does at its own index. -/
def decStep (cfg : Config) (ok : Bool) (cur : Int) : Int :=
  if cur > cfg.min_fan_pwm then
    (if ok then clampFan cfg (max (cur - cfg.pwm_step) cfg.min_fan_pwm) else cur)
  else cur

/-- The write the decrease fan loop issues for index `i`. -/
def decWriteAt (cfg : Config) (fans : List Int) (i : Nat) : Option Write :=
  let cur := fans.getD i 0
  if cur > cfg.min_fan_pwm then
    some (.fan i (clampFan cfg (max (cur - cfg.pwm_step) cfg.min_fan_pwm)))
  else none

theorem incLoop_pump (cfg : Config) (inc : Int) (oks : Nat → Bool) :
    ∀ (is : List Nat) (s : CState),
      (increaseFansLoop cfg inc oks s is).1.current_pump_pwm = s.current_pump_pwm := by
  intro is
  induction is with
  | nil => intro s; rfl
  | cons a t ih =>
    intro s
    simp only [increaseFansLoop, set_fan_pwm_eq]
    split
    · split <;> simp [ih]
    · exact ih s

theorem decLoop_pump (cfg : Config) (oks : Nat → Bool) :
    ∀ (is : List Nat) (s : CState),
      (decreaseFansLoop cfg oks s is).1.current_pump_pwm = s.current_pump_pwm := by
  intro is
  induction is with
  | nil => intro s; rfl
  | cons a t ih =>
    intro s
    simp only [decreaseFansLoop, set_fan_pwm_eq]
    split
    · split <;> simp [ih]
    · exact ih s

theorem incLoop_length (cfg : Config) (inc : Int) (oks : Nat → Bool) :
    ∀ (is : List Nat) (s : CState),
      (increaseFansLoop cfg inc oks s is).1.current_fan_pwms.length =
        s.current_fan_pwms.length := by
  intro is
  induction is with
  | nil => intro s; rfl
  | cons a t ih =>
    intro s
    simp only [increaseFansLoop, set_fan_pwm_eq]
    split
    · split <;> simp [ih]
    · exact ih s

theorem decLoop_length (cfg : Config) (oks : Nat → Bool) :
    ∀ (is : List Nat) (s : CState),
      (decreaseFansLoop cfg oks s is).1.current_fan_pwms.length =
        s.current_fan_pwms.length := by
  intro is
  induction is with
  | nil => intro s; rfl
  | cons a t ih =>
    intro s
    simp only [decreaseFansLoop, set_fan_pwm_eq]
    split
    · split <;> simp [ih]
    · exact ih s

theorem getD_set_self (l : List Int) {i : Nat} (h : i < l.length) (v : Int) :
    (l.set i v).getD i 0 = v := by
  simp [List.getD_eq_getElem?_getD, List.getElem?_set_self h]

theorem getD_set_ne (l : List Int) {i j : Nat} (h : i ≠ j) (v : Int) :
    (l.set i v).getD j 0 = l.getD j 0 := by
  simp [List.getD_eq_getElem?_getD, List.getElem?_set_ne h]

theorem incLoop_getD_not_mem (cfg : Config) (inc : Int) (oks : Nat → Bool) :
    ∀ (is : List Nat) (s : CState) (j : Nat), j ∉ is →
      (increaseFansLoop cfg inc oks s is).1.current_fan_pwms.getD j 0 =
        s.current_fan_pwms.getD j 0 := by
  intro is
  induction is with
  | nil => intro s j _; rfl
  | cons a t ih =>
    intro s j hj
    have hja : j ≠ a := fun h => hj (h ▸ List.mem_cons_self a t)
    have hjt : j ∉ t := fun h => hj (List.mem_cons_of_mem a h)
    simp only [increaseFansLoop, set_fan_pwm_eq]
    split
    · split
      · rw [ih _ j hjt]; simpa using getD_set_ne _ (Ne.symm hja) _
      · exact ih _ j hjt
    · exact ih _ j hjt

theorem decLoop_getD_not_mem (cfg : Config) (oks : Nat → Bool) :
    ∀ (is : List Nat) (s : CState) (j : Nat), j ∉ is →
      (decreaseFansLoop cfg oks s is).1.current_fan_pwms.getD j 0 =
        s.current_fan_pwms.getD j 0 := by
  intro is
  induction is with
  | nil => intro s j _; rfl
  | cons a t ih =>
    intro s j hj
    have hja : j ≠ a := fun h => hj (h ▸ List.mem_cons_self a t)
    have hjt : j ∉ t := fun h => hj (List.mem_cons_of_mem a h)
    simp only [decreaseFansLoop, set_fan_pwm_eq]
    split
    · split
      · rw [ih _ j hjt]; simpa using getD_set_ne _ (Ne.symm hja) _
      · exact ih _ j hjt
    · exact ih _ j hjt

theorem incLoop_getD_mem (cfg : Config) (inc : Int) (oks : Nat → Bool) :
    ∀ (is : List Nat) (s : CState) (i : Nat), is.Nodup → i ∈ is →
      i < s.current_fan_pwms.length →
      (increaseFansLoop cfg inc oks s is).1.current_fan_pwms.getD i 0 =
        incStep cfg inc (oks i) (s.current_fan_pwms.getD i 0) := by
  intro is
  induction is with
  | nil => intro s i _ h; exact absurd h (List.not_mem_nil i)
  | cons a t ih =>
    intro s i hnd hmem hlen
    have hat : a ∉ t := (List.nodup_cons.mp hnd).1
    have hndt : t.Nodup := (List.nodup_cons.mp hnd).2
    rcases List.mem_cons.mp hmem with rfl | hit
    · -- i = a: the head iteration acts on index i, the tail leaves it alone
      simp only [increaseFansLoop, set_fan_pwm_eq, incStep]
      split
      · split
        · rw [incLoop_getD_not_mem cfg inc oks t _ i hat]
          simp only
          rw [getD_set_self _ hlen]
        · rw [incLoop_getD_not_mem cfg inc oks t _ i hat]
      · rw [incLoop_getD_not_mem cfg inc oks t _ i hat]
    · have hia : i ≠ a := fun h => hat (h ▸ hit)
      simp only [increaseFansLoop, set_fan_pwm_eq]
      split
      · split
        · rw [ih _ i hndt hit (by simpa using hlen)]
          simp only
          rw [getD_set_ne _ (Ne.symm hia)]
        · exact ih _ i hndt hit hlen
      · exact ih _ i hndt hit hlen

theorem decLoop_getD_mem (cfg : Config) (oks : Nat → Bool) :
    ∀ (is : List Nat) (s : CState) (i : Nat), is.Nodup → i ∈ is →
      i < s.current_fan_pwms.length →
      (decreaseFansLoop cfg oks s is).1.current_fan_pwms.getD i 0 =
        decStep cfg (oks i) (s.current_fan_pwms.getD i 0) := by
  intro is
  induction is with
  | nil => intro s i _ h; exact absurd h (List.not_mem_nil i)
  | cons a t ih =>
    intro s i hnd hmem hlen
    have hat : a ∉ t := (List.nodup_cons.mp hnd).1
    have hndt : t.Nodup := (List.nodup_cons.mp hnd).2
    rcases List.mem_cons.mp hmem with rfl | hit
    · simp only [decreaseFansLoop, set_fan_pwm_eq, decStep]
      split
      · split
        · rw [decLoop_getD_not_mem cfg oks t _ i hat]
          simp only
          rw [getD_set_self _ hlen]
        · rw [decLoop_getD_not_mem cfg oks t _ i hat]
      · rw [decLoop_getD_not_mem cfg oks t _ i hat]
    · have hia : i ≠ a := fun h => hat (h ▸ hit)
      simp only [decreaseFansLoop, set_fan_pwm_eq]
      split
      · split
        · rw [ih _ i hndt hit (by simpa using hlen)]
          simp only
          rw [getD_set_ne _ (Ne.symm hia)]
        · exact ih _ i hndt hit hlen
      · exact ih _ i hndt hit hlen

theorem incLoop_writes (cfg : Config) (inc : Int) (oks : Nat → Bool) :
    ∀ (is : List Nat) (s : CState), is.Nodup →
      (increaseFansLoop cfg inc oks s is).2 =
        is.filterMap (incWriteAt cfg inc s.current_fan_pwms) := by
  intro is
  induction is with
  | nil => intro s _; rfl
  | cons a t ih =>
    intro s hnd
    have hat : a ∉ t := (List.nodup_cons.mp hnd).1
    have hndt : t.Nodup := (List.nodup_cons.mp hnd).2
    have congrTail : ∀ (fans' : List Int),
        (∀ j ∈ t, fans'.getD j 0 = s.current_fan_pwms.getD j 0) →
        t.filterMap (incWriteAt cfg inc fans') =
          t.filterMap (incWriteAt cfg inc s.current_fan_pwms) := by
      intro fans' hsame
      exact List.filterMap_congr (fun j hj => by
        simp only [incWriteAt, hsame j hj])
    simp only [increaseFansLoop, set_fan_pwm_eq]
    split
    · rename_i hgt
      have hw : incWriteAt cfg inc s.current_fan_pwms a =
          some (Write.fan a (clampFan cfg
            (min (s.current_fan_pwms.getD a 0 + inc) cfg.max_fan_pwm))) := by
        simp only [incWriteAt]
        rw [if_pos hgt]
      rw [List.filterMap_cons_some hw]
      split
      · rw [ih _ hndt]
        refine congrArg₂ List.cons rfl ?_
        exact congrTail _ (fun j hj =>
          getD_set_ne _ (ne_of_mem_of_not_mem hj hat).symm _)
      · rw [ih _ hndt]
    · rename_i hle
      rw [List.filterMap_cons_none (by simp only [incWriteAt]; rw [if_neg hle])]
      exact ih _ hndt

theorem decLoop_writes (cfg : Config) (oks : Nat → Bool) :
    ∀ (is : List Nat) (s : CState), is.Nodup →
      (decreaseFansLoop cfg oks s is).2 =
        is.filterMap (decWriteAt cfg s.current_fan_pwms) := by
  intro is
  induction is with
  | nil => intro s _; rfl
  | cons a t ih =>
    intro s hnd
    have hat : a ∉ t := (List.nodup_cons.mp hnd).1
    have hndt : t.Nodup := (List.nodup_cons.mp hnd).2
    have congrTail : ∀ (fans' : List Int),
        (∀ j ∈ t, fans'.getD j 0 = s.current_fan_pwms.getD j 0) →
        t.filterMap (decWriteAt cfg fans') =
          t.filterMap (decWriteAt cfg s.current_fan_pwms) := by
      intro fans' hsame
      exact List.filterMap_congr (fun j hj => by
        simp only [decWriteAt, hsame j hj])
    simp only [decreaseFansLoop, set_fan_pwm_eq]
    split
    · rename_i hgt
      have hw : decWriteAt cfg s.current_fan_pwms a =
          some (Write.fan a (clampFan cfg
            (max (s.current_fan_pwms.getD a 0 - cfg.pwm_step) cfg.min_fan_pwm))) := by
        simp only [decWriteAt]
        rw [if_pos hgt]
      rw [List.filterMap_cons_some hw]
      split
      · rw [ih _ hndt]
        refine congrArg₂ List.cons rfl ?_
        exact congrTail _ (fun j hj =>
          getD_set_ne _ (ne_of_mem_of_not_mem hj hat).symm _)
      · rw [ih _ hndt]
    · rename_i hle
      rw [List.filterMap_cons_none (by simp only [decWriteAt]; rw [if_neg hle])]
      exact ih _ hndt

/-- Whether a write targets the pump register. -/
def isPumpWrite : Write → Bool
  | .pump _ => true
  | .fan _ _ => false

theorem getD_mem_of_lt (l : List Int) {i : Nat} (h : i < l.length) :
    l.getD i 0 ∈ l := by
  rw [List.getD_eq_getElem?_getD, List.getElem?_eq_getElem h]
  exact List.getElem_mem h

theorem incLoop_no_pump_writes (cfg : Config) (inc : Int) (oks : Nat → Bool) :
    ∀ (is : List Nat) (s : CState) (w : Write),
      w ∈ (increaseFansLoop cfg inc oks s is).2 → isPumpWrite w = false := by
  intro is
  induction is with
  | nil => intro s w h; exact absurd h (List.not_mem_nil w)
  | cons a t ih =>
    intro s w hw
    revert hw
    simp only [increaseFansLoop]
    split
    · intro hw
      rcases List.mem_cons.mp hw with rfl | hw'
      · rfl
      · exact ih _ w hw'
    · exact ih s w

theorem decLoop_no_pump_writes (cfg : Config) (oks : Nat → Bool) :
    ∀ (is : List Nat) (s : CState) (w : Write),
      w ∈ (decreaseFansLoop cfg oks s is).2 → isPumpWrite w = false := by
  intro is
  induction is with
  | nil => intro s w h; exact absurd h (List.not_mem_nil w)
  | cons a t ih =>
    intro s w hw
    revert hw
    simp only [decreaseFansLoop]
    split
    · intro hw
      rcases List.mem_cons.mp hw with rfl | hw'
      · rfl
      · exact ih _ w hw'
    · exact ih s w

theorem incLoop_fans_range (cfg : Config) (inc : Int) (oks : Nat → Bool)
    (hb : cfg.min_fan_pwm ≤ cfg.max_fan_pwm) :
    ∀ (is : List Nat) (s : CState),
      (∀ x ∈ s.current_fan_pwms, cfg.min_fan_pwm ≤ x ∧ x ≤ cfg.max_fan_pwm) →
      ∀ x ∈ (increaseFansLoop cfg inc oks s is).1.current_fan_pwms,
        cfg.min_fan_pwm ≤ x ∧ x ≤ cfg.max_fan_pwm := by
  intro is
  induction is with
  | nil => intro s h; exact h
  | cons a t ih =>
    intro s hs
    simp only [increaseFansLoop, set_fan_pwm_eq]
    split
    · split
      · refine ih _ (fun x hx => ?_)
        rcases List.mem_or_eq_of_mem_set hx with hx' | rfl
        · exact hs x hx'
        · exact clampFan_range cfg hb _
      · exact ih _ hs
    · exact ih _ hs

theorem decLoop_fans_range (cfg : Config) (oks : Nat → Bool)
    (hb : cfg.min_fan_pwm ≤ cfg.max_fan_pwm) :
    ∀ (is : List Nat) (s : CState),
      (∀ x ∈ s.current_fan_pwms, cfg.min_fan_pwm ≤ x ∧ x ≤ cfg.max_fan_pwm) →
      ∀ x ∈ (decreaseFansLoop cfg oks s is).1.current_fan_pwms,
        cfg.min_fan_pwm ≤ x ∧ x ≤ cfg.max_fan_pwm := by
  intro is
  induction is with
  | nil => intro s h; exact h
  | cons a t ih =>
    intro s hs
    simp only [decreaseFansLoop, set_fan_pwm_eq]
    split
    · split
      · refine ih _ (fun x hx => ?_)
        rcases List.mem_or_eq_of_mem_set hx with hx' | rfl
        · exact hs x hx'
        · exact clampFan_range cfg hb _
      · exact ih _ hs
    · exact ih _ hs

theorem incLoop_writes_range (cfg : Config) (inc : Int) (oks : Nat → Bool)
    (hb : cfg.min_fan_pwm ≤ cfg.max_fan_pwm) :
    ∀ (is : List Nat) (s : CState) (w : Write),
      w ∈ (increaseFansLoop cfg inc oks s is).2 → w.inBounds cfg := by
  intro is
  induction is with
  | nil => intro s w h; exact absurd h (List.not_mem_nil w)
  | cons a t ih =>
    intro s w hw
    revert hw
    simp only [increaseFansLoop, set_fan_pwm_eq]
    split
    · intro hw
      rcases List.mem_cons.mp hw with rfl | hw'
      · exact clampFan_range cfg hb _
      · exact ih _ w hw'
    · exact ih s w

theorem decLoop_writes_range (cfg : Config) (oks : Nat → Bool)
    (hb : cfg.min_fan_pwm ≤ cfg.max_fan_pwm) :
    ∀ (is : List Nat) (s : CState) (w : Write),
      w ∈ (decreaseFansLoop cfg oks s is).2 → w.inBounds cfg := by
  intro is
  induction is with
  | nil => intro s w h; exact absurd h (List.not_mem_nil w)
  | cons a t ih =>
    intro s w hw
    revert hw
    simp only [decreaseFansLoop, set_fan_pwm_eq]
    split
    · intro hw
      rcases List.mem_cons.mp hw with rfl | hw'
      · exact clampFan_range cfg hb _
      · exact ih _ w hw'
    · exact ih s w

/-- `foldl max` dominates its seed and every element, and equals one
of them. -/
theorem foldl_max_spec (l : List Int) : ∀ (a : Int),
    a ≤ l.foldl max a ∧ (∀ x ∈ l, x ≤ l.foldl max a) ∧
      (l.foldl max a = a ∨ l.foldl max a ∈ l) := by
  induction l with
  | nil =>
    intro a
    exact ⟨le_refl a, fun x hx => absurd hx (List.not_mem_nil x), Or.inl rfl⟩
  | cons b t ih =>
    intro a
    obtain ⟨h1, h2, h3⟩ := ih (max a b)
    refine ⟨le_trans (le_max_left a b) h1, ?_, ?_⟩
    · intro x hx
      rcases List.mem_cons.mp hx with h | hx'
      · rw [h, List.foldl_cons]
        exact le_trans (le_max_right a b) h1
      · rw [List.foldl_cons]
        exact h2 x hx'
    · rcases h3 with h | h
      · rcases max_choice a b with hab | hab
        · exact Or.inl (by rw [List.foldl_cons, h, hab])
        · refine Or.inr ?_
          rw [List.foldl_cons, h, hab]
          exact List.mem_cons_self b t
      · exact Or.inr (List.mem_cons_of_mem b h)

/-- `List.max?` returns a member that dominates every element. -/
theorem max?_spec (l : List Int) (m : Int) (h : l.max? = some m) :
    m ∈ l ∧ ∀ x ∈ l, x ≤ m := by
  cases l with
  | nil => exact absurd h (by simp)
  | cons x xs =>
    obtain ⟨h1, h2, h3⟩ := foldl_max_spec xs x
    have hm : List.foldl max x xs = m := Option.some.inj h
    constructor
    · rcases h3 with hh | hh
      · rw [← hm, hh]; exact List.mem_cons_self x xs
      · rw [← hm]; exact List.mem_cons_of_mem x hh
    · intro y hy
      rcases List.mem_cons.mp hy with rfl | hy'
      · rw [← hm]; exact h1
      · rw [← hm]; exact h2 y hy'

/-- `pwm_increase` of the increase branch of `adjust_cooling`:
`(excess_temp // 5 + 1) * pwm_step`. -/
def pumpIncreaseOf (cfg : Config) (temp : Int) : Int :=
  (Int.fdiv (temp - cfg.temp_threshold) 5 + 1) * cfg.pwm_step

theorem pumpIncreaseOf_pos (cfg : Config) (temp : Int)
    (hT : cfg.temp_threshold < temp) (hstep : 0 < cfg.pwm_step) :
    0 < pumpIncreaseOf cfg temp := by
  have h0 : 0 ≤ Int.fdiv (temp - cfg.temp_threshold) 5 :=
    Int.fdiv_nonneg (by omega) (by omega)
  exact mul_pos (by omega) hstep

/-- The value held by the last snapshot entry for a device, if any. -/
def lastVal : List (Nat × String) → Nat → Option String
  | [], _ => none
  | e :: rest, dev =>
    match lastVal rest dev with
    | some w => some w
    | none => if e.1 = dev then some e.2 else none

/-- The register state produced by `restore_original_settings`:
devices whose writes succeed end at their last snapshot value,
all other registers keep their prior contents — independently of
which other writes fail. -/
theorem restore_effect (ok : Nat → Bool) :
    ∀ (settings : List (Nat × String)) (hw : Nat → String) (dev : Nat),
      (restore_original_settings ok hw settings).1 dev =
        if ok dev then (lastVal settings dev).getD (hw dev) else hw dev := by
  intro settings
  induction settings with
  | nil =>
    intro hw dev
    cases h : ok dev <;> simp [restore_original_settings, lastVal, h]
  | cons e rest ih =>
    intro hw dev
    obtain ⟨d, v⟩ := e
    simp only [restore_original_settings]
    rw [ih]
    by_cases hok : ok dev = true
    · rw [if_pos hok, if_pos hok]
      simp only [lastVal]
      cases hlv : lastVal rest dev with
      | some w => simp
      | none =>
        simp only [Option.getD_none]
        by_cases hd : d = dev
        · subst hd
          rw [if_pos rfl, if_pos hok]
          simp [if_pos rfl]
        · rw [if_neg hd]
          simp only [Option.getD_none]
          by_cases hokd : ok d = true
          · rw [if_pos hokd]
            rw [if_neg (fun h => hd h.symm)]
          · rw [if_neg hokd]
    · rw [if_neg hok, if_neg hok]
      by_cases hokd : ok d = true
      · rw [if_pos hokd]
        by_cases hd : dev = d
        · subst hd
          exact absurd hokd (by simpa using hok)
        · rw [if_neg hd]
      · rw [if_neg hokd]

/-- The capture loop keeps exactly the prefix of readable registers
up to the first failing read. -/
theorem captureReads_upto_failure (read : Nat → Option String) :
    ∀ (l : List Nat),
      captureReads read l =
        (l.takeWhile (fun x => (read x).isSome)).filterMap
          (fun x => (read x).map (fun v => (x, v))) := by
  intro l
  induction l with
  | nil => rfl
  | cons d rest ih =>
    simp only [captureReads, List.takeWhile_cons]
    cases h : read d with
    | none => simp [h]
    | some v =>
      simp only [h, Option.isSome_some, if_pos]
      rw [List.filterMap_cons_some
        (f := fun x => Option.map (fun w => (x, w)) (read x))
        (a := d) (b := (d, v)) (by simp [h])]
      rw [ih]

theorem set_pump_pwm_true (cfg : Config) (s : CState) (v : Int) :
    set_pump_pwm cfg s v true =
      ({ s with current_pump_pwm := clampPump cfg v }, clampPump cfg v) := rfl

theorem set_fan_pwm_true (cfg : Config) (s : CState) (i : Nat) (v : Int) :
    set_fan_pwm cfg s i v true =
      ({ s with current_fan_pwms := s.current_fan_pwms.set i (clampFan cfg v) },
       clampFan cfg v) := rfl

/-! ## Claim theorems -/

/-- C2: for every temperature in the deadband
`temp_threshold - 10 ≤ temp ≤ temp_threshold`, a control tick changes
no setpoint and issues no actuator write. -/
theorem deadband_tick_noop (cfg : Config) (nFans : Nat) (pumpOk : Bool)
    (oks : Nat → Bool) (s : CState) (temp : Int)
    (h1 : cfg.temp_threshold - 10 ≤ temp) (h2 : temp ≤ cfg.temp_threshold) :
    control_tick cfg nFans pumpOk oks s (some temp) = (s, []) := by
  simp only [control_tick, adjust_cooling]
  rw [if_neg (by omega), if_neg (by omega)]

/-- Witness for C2: Scenario D — threshold 70, temp 65, nothing
changes and nothing is written. -/
theorem deadband_tick_noop_witness :
    ((70 : Int) - 10 ≤ 65 ∧ (65 : Int) ≤ 70) ∧
    control_tick ⟨70, 100, 255, 80, 255, 20⟩ 1 true (fun _ => true)
      ⟨140, [140]⟩ (some 65) = (⟨140, [140]⟩, []) :=
  ⟨by decide,
   deadband_tick_noop ⟨70, 100, 255, 80, 255, 20⟩ 1 true (fun _ => true)
     ⟨140, [140]⟩ 65 (by decide) (by decide)⟩

/-- C1: for `temp > temp_threshold` the policy computes
`pwm_increase = (excess // 5 + 1) * pwm_step`, targets
`new_pump = min(current_pump_pwm + pwm_increase, max_pump_pwm)`,
stores it as the new pump setpoint exactly when it is strictly greater
than the current one (the only case in which a pump write is issued),
and in particular a pump already at `max_pump_pwm` is not rewritten. -/
theorem increase_branch_pump (cfg : Config) (nFans : Nat) (oks : Nat → Bool)
    (s : CState) (temp : Int)
    (hT : cfg.temp_threshold < temp)
    (hstep : 0 < cfg.pwm_step)
    (hmin : cfg.min_pump_pwm ≤ s.current_pump_pwm)
    (hbound : cfg.min_pump_pwm ≤ cfg.max_pump_pwm) :
    ((adjust_cooling cfg nFans true oks s temp).1.current_pump_pwm =
      if min (s.current_pump_pwm + pumpIncreaseOf cfg temp) cfg.max_pump_pwm >
          s.current_pump_pwm
        then min (s.current_pump_pwm + pumpIncreaseOf cfg temp) cfg.max_pump_pwm
        else s.current_pump_pwm) ∧
    ((adjust_cooling cfg nFans true oks s temp).2.filter isPumpWrite =
      if min (s.current_pump_pwm + pumpIncreaseOf cfg temp) cfg.max_pump_pwm >
          s.current_pump_pwm
        then [Write.pump
          (min (s.current_pump_pwm + pumpIncreaseOf cfg temp) cfg.max_pump_pwm)]
        else []) ∧
    (s.current_pump_pwm = cfg.max_pump_pwm →
      (adjust_cooling cfg nFans true oks s temp).1.current_pump_pwm =
        s.current_pump_pwm ∧
      (adjust_cooling cfg nFans true oks s temp).2.filter isPumpWrite = []) := by
  have hinc := pumpIncreaseOf_pos cfg temp hT hstep
  simp only [adjust_cooling, pumpIncreaseOf] at hinc ⊢
  rw [if_pos hT]
  generalize (Int.fdiv (temp - cfg.temp_threshold) 5 + 1) * cfg.pwm_step = X at hinc ⊢
  have hfanEmpty : ∀ (s' : CState),
      (increaseFansLoop cfg (Int.tdiv (3 * X) 2) oks s' (List.range nFans)).2.filter
        isPumpWrite = [] := by
    intro s'
    rw [List.filter_eq_nil_iff]
    intro w hw
    simp [incLoop_no_pump_writes cfg (Int.tdiv (3 * X) 2) oks (List.range nFans) s' w hw]
  by_cases hgt : min (s.current_pump_pwm + X) cfg.max_pump_pwm > s.current_pump_pwm
  · simp only [if_pos hgt]
    have hcl : clampPump cfg (min (s.current_pump_pwm + X) cfg.max_pump_pwm) =
        min (s.current_pump_pwm + X) cfg.max_pump_pwm :=
      clampPump_of_inside cfg _ (by omega) (by omega)
    have hA : (increaseFansLoop cfg (Int.tdiv (3 * X) 2) oks
        (set_pump_pwm cfg s (min (s.current_pump_pwm + X) cfg.max_pump_pwm) true).1
        (List.range nFans)).1.current_pump_pwm =
        min (s.current_pump_pwm + X) cfg.max_pump_pwm := by
      rw [incLoop_pump, set_pump_pwm_true]
      exact hcl
    have hB : (([Write.pump
          (set_pump_pwm cfg s (min (s.current_pump_pwm + X) cfg.max_pump_pwm) true).2] ++
        (increaseFansLoop cfg (Int.tdiv (3 * X) 2) oks
          (set_pump_pwm cfg s (min (s.current_pump_pwm + X) cfg.max_pump_pwm) true).1
          (List.range nFans)).2).filter isPumpWrite) =
        [Write.pump (min (s.current_pump_pwm + X) cfg.max_pump_pwm)] := by
      rw [List.filter_append, hfanEmpty, set_pump_pwm_true]
      simp [isPumpWrite, hcl]
    refine ⟨hA, hB, ?_⟩
    intro hmax
    exact absurd hgt (by omega)
  · simp only [if_neg hgt]
    have hA : (increaseFansLoop cfg (Int.tdiv (3 * X) 2) oks
        (s, ([] : List Write)).1 (List.range nFans)).1.current_pump_pwm =
        s.current_pump_pwm := by
      rw [incLoop_pump]
    have hB : (((s, ([] : List Write)).2 ++
        (increaseFansLoop cfg (Int.tdiv (3 * X) 2) oks (s, ([] : List Write)).1
          (List.range nFans)).2).filter isPumpWrite) = [] := by
      rw [List.filter_append, hfanEmpty]
      rfl
    exact ⟨hA, hB, fun _ => ⟨hA, hB⟩⟩

/-- Witness for C1: Scenario A — threshold 70, step 20, pump 100,
temp 76: excess 6, increase 40, new pump 140. -/
theorem increase_branch_pump_witness :
    ((70 : Int) < 76 ∧ (0 : Int) < 20 ∧ (100 : Int) ≤ 100 ∧ (100 : Int) ≤ 255) ∧
    ((adjust_cooling ⟨70, 100, 255, 80, 255, 20⟩ 1 true (fun _ => true)
        ⟨100, [80]⟩ 76).1.current_pump_pwm =
      if min ((100 : Int) + pumpIncreaseOf ⟨70, 100, 255, 80, 255, 20⟩ 76) 255 > 100
        then min ((100 : Int) + pumpIncreaseOf ⟨70, 100, 255, 80, 255, 20⟩ 76) 255
        else 100) ∧
    pumpIncreaseOf ⟨70, 100, 255, 80, 255, 20⟩ 76 = 40 ∧
    (adjust_cooling ⟨70, 100, 255, 80, 255, 20⟩ 1 true (fun _ => true)
        ⟨100, [80]⟩ 76).1.current_pump_pwm = 140 :=
  ⟨by decide,
   (increase_branch_pump ⟨70, 100, 255, 80, 255, 20⟩ 1 (fun _ => true)
      ⟨100, [80]⟩ 76 (by decide) (by decide) (by decide) (by decide)).1,
   by decide, by decide⟩

theorem set_pump_pwm_fans (cfg : Config) (s : CState) (v : Int) (ok : Bool) :
    (set_pump_pwm cfg s v ok).1.current_fan_pwms = s.current_fan_pwms := by
  cases ok <;> rfl

/-- The increase fan loop over `range n` (all writes succeeding), seen
from one index `i < n`: the fan is set to
`min (cur + Y) max_fan_pwm` exactly when that is strictly greater than
`cur`, and the writes it issues for index `i` are exactly that value
in exactly that case. -/
theorem incLoop_range_claim (cfg : Config) (n : Nat) (Y : Int) (s0 : CState) (i : Nat)
    (hfb : cfg.min_fan_pwm ≤ cfg.max_fan_pwm)
    (hlen : s0.current_fan_pwms.length = n) (hi : i < n)
    (hfmin : cfg.min_fan_pwm ≤ s0.current_fan_pwms.getD i 0) :
    ((increaseFansLoop cfg Y (fun _ => true) s0 (List.range n)).1.current_fan_pwms.getD i 0 =
      if min (s0.current_fan_pwms.getD i 0 + Y) cfg.max_fan_pwm >
          s0.current_fan_pwms.getD i 0
        then min (s0.current_fan_pwms.getD i 0 + Y) cfg.max_fan_pwm
        else s0.current_fan_pwms.getD i 0) ∧
    (min (s0.current_fan_pwms.getD i 0 + Y) cfg.max_fan_pwm >
        s0.current_fan_pwms.getD i 0 →
      Write.fan i (min (s0.current_fan_pwms.getD i 0 + Y) cfg.max_fan_pwm) ∈
        (increaseFansLoop cfg Y (fun _ => true) s0 (List.range n)).2) ∧
    (∀ v : Int,
      Write.fan i v ∈ (increaseFansLoop cfg Y (fun _ => true) s0 (List.range n)).2 →
      s0.current_fan_pwms.getD i 0 < v ∧
        v = min (s0.current_fan_pwms.getD i 0 + Y) cfg.max_fan_pwm) := by
  have hnd := List.nodup_range n
  have hmem := List.mem_range.mpr hi
  have hlt : i < s0.current_fan_pwms.length := by omega
  have hget := incLoop_getD_mem cfg Y (fun _ => true) (List.range n) s0 i hnd hmem hlt
  have hwr := incLoop_writes cfg Y (fun _ => true) (List.range n) s0 hnd
  refine ⟨?_, ?_, ?_⟩
  · rw [hget]
    simp only [incStep]
    by_cases hc : min (s0.current_fan_pwms.getD i 0 + Y) cfg.max_fan_pwm >
        s0.current_fan_pwms.getD i 0
    · rw [if_pos hc, if_pos hc, if_pos trivial]
      exact clampFan_of_inside cfg _ (by omega) (by omega)
    · rw [if_neg hc, if_neg hc]
  · intro hc
    rw [hwr]
    refine List.mem_filterMap.mpr ⟨i, hmem, ?_⟩
    simp only [incWriteAt]
    rw [if_pos hc, clampFan_of_inside cfg _ (by omega) (by omega)]
  · intro v hv
    rw [hwr] at hv
    obtain ⟨j, hj, hw⟩ := List.mem_filterMap.mp hv
    simp only [incWriteAt] at hw
    split at hw
    · rename_i hcond
      rw [Option.some.injEq, Write.fan.injEq] at hw
      obtain ⟨rfl, hv'⟩ := hw
      rw [clampFan_of_inside cfg _ (by omega) (by omega)] at hv'
      exact ⟨by omega, hv'.symm⟩
    · exact absurd hw (by simp)

/-- C4: in the increase branch the fan increment is
`int(pwm_increase * 1.5)`, which for the positive `pwm_increase` of
this branch equals `floor(3 * pwm_increase / 2)`; each fan is set to
`min(current_fan + fan_increase, max_fan_pwm)`, written exactly when
that is strictly greater than the current value. -/
theorem increase_branch_fans (cfg : Config) (nFans : Nat) (s : CState) (temp : Int)
    (i : Nat)
    (hT : cfg.temp_threshold < temp)
    (hstep : 0 < cfg.pwm_step)
    (hfb : cfg.min_fan_pwm ≤ cfg.max_fan_pwm)
    (hlen : s.current_fan_pwms.length = nFans)
    (hi : i < nFans)
    (hfmin : cfg.min_fan_pwm ≤ s.current_fan_pwms.getD i 0) :
    (Int.tdiv (3 * pumpIncreaseOf cfg temp) 2 =
      Int.fdiv (3 * pumpIncreaseOf cfg temp) 2) ∧
    ((adjust_cooling cfg nFans true (fun _ => true) s temp).1.current_fan_pwms.getD i 0 =
      if min (s.current_fan_pwms.getD i 0 + Int.tdiv (3 * pumpIncreaseOf cfg temp) 2)
          cfg.max_fan_pwm > s.current_fan_pwms.getD i 0
        then min (s.current_fan_pwms.getD i 0 + Int.tdiv (3 * pumpIncreaseOf cfg temp) 2)
          cfg.max_fan_pwm
        else s.current_fan_pwms.getD i 0) ∧
    (min (s.current_fan_pwms.getD i 0 + Int.tdiv (3 * pumpIncreaseOf cfg temp) 2)
        cfg.max_fan_pwm > s.current_fan_pwms.getD i 0 →
      Write.fan i (min (s.current_fan_pwms.getD i 0 +
          Int.tdiv (3 * pumpIncreaseOf cfg temp) 2) cfg.max_fan_pwm) ∈
        (adjust_cooling cfg nFans true (fun _ => true) s temp).2) ∧
    (∀ v : Int,
      Write.fan i v ∈ (adjust_cooling cfg nFans true (fun _ => true) s temp).2 →
      s.current_fan_pwms.getD i 0 < v ∧
        v = min (s.current_fan_pwms.getD i 0 +
          Int.tdiv (3 * pumpIncreaseOf cfg temp) 2) cfg.max_fan_pwm) := by
  have hp := pumpIncreaseOf_pos cfg temp hT hstep
  refine ⟨?_, ?_⟩
  · rw [Int.tdiv_eq_ediv (by omega) (by omega), Int.fdiv_eq_ediv _ (by omega)]
  simp only [adjust_cooling, pumpIncreaseOf] at hp ⊢
  rw [if_pos hT]
  generalize (Int.fdiv (temp - cfg.temp_threshold) 5 + 1) * cfg.pwm_step = X at hp ⊢
  generalize Int.tdiv (3 * X) 2 = Y
  by_cases hpgt : min (s.current_pump_pwm + X) cfg.max_pump_pwm > s.current_pump_pwm
  · simp only [if_pos hpgt]
    obtain ⟨hA, hB, hC⟩ := incLoop_range_claim cfg nFans Y
      ((set_pump_pwm cfg s (min (s.current_pump_pwm + X) cfg.max_pump_pwm) true).1) i
      hfb (by rw [set_pump_pwm_fans]; exact hlen) hi
      (by rw [set_pump_pwm_fans]; exact hfmin)
    rw [set_pump_pwm_fans] at hA hB hC
    refine ⟨hA, ?_, ?_⟩
    · intro hc
      exact List.mem_append.mpr (Or.inr (hB hc))
    · intro v hv
      rcases List.mem_append.mp hv with hv' | hv'
      · exact absurd hv' (by simp)
      · exact hC v hv'
  · simp only [if_neg hpgt]
    obtain ⟨hA, hB, hC⟩ := incLoop_range_claim cfg nFans Y s i hfb hlen hi hfmin
    refine ⟨hA, ?_, ?_⟩
    · intro hc
      exact List.mem_append.mpr (Or.inr (hB hc))
    · intro v hv
      rcases List.mem_append.mp hv with hv' | hv'
      · exact absurd hv' (by simp)
      · exact hC v hv'

/-- Witness for C4: Scenario B — pump increase 40 gives fan increase
60, fan 80 goes to `min(140, 255) = 140`. -/
theorem increase_branch_fans_witness :
    ((70 : Int) < 76 ∧ (0 : Int) < 20 ∧ (80 : Int) ≤ 255 ∧
      ([(80 : Int)].length = 1) ∧ 0 < 1 ∧ (80 : Int) ≤ 80) ∧
    (Int.tdiv (3 * pumpIncreaseOf ⟨70, 100, 255, 80, 255, 20⟩ 76) 2 =
      Int.fdiv (3 * pumpIncreaseOf ⟨70, 100, 255, 80, 255, 20⟩ 76) 2) ∧
    Int.tdiv (3 * pumpIncreaseOf ⟨70, 100, 255, 80, 255, 20⟩ 76) 2 = 60 ∧
    (adjust_cooling ⟨70, 100, 255, 80, 255, 20⟩ 1 true (fun _ => true)
      ⟨100, [80]⟩ 76).1.current_fan_pwms.getD 0 0 = 140 :=
  ⟨by decide,
   (increase_branch_fans ⟨70, 100, 255, 80, 255, 20⟩ 1 ⟨100, [80]⟩ 76 0
      (by decide) (by decide) (by decide) (by decide) (by decide) (by decide)).1,
   by decide, by decide⟩

/-- The decrease fan loop over `range n` (all writes succeeding), seen
from one index `i < n`: a fan strictly above `min_fan_pwm` is lowered
to `max (cur - pwm_step) min_fan_pwm`, a fan at the minimum is left
untouched and gets no write. -/
theorem decLoop_range_claim (cfg : Config) (n : Nat) (s0 : CState) (i : Nat)
    (hstep : 0 < cfg.pwm_step)
    (hfb : cfg.min_fan_pwm ≤ cfg.max_fan_pwm)
    (hlen : s0.current_fan_pwms.length = n) (hi : i < n)
    (hfmin : cfg.min_fan_pwm ≤ s0.current_fan_pwms.getD i 0)
    (hfmax : s0.current_fan_pwms.getD i 0 ≤ cfg.max_fan_pwm) :
    ((decreaseFansLoop cfg (fun _ => true) s0 (List.range n)).1.current_fan_pwms.getD i 0 =
      if s0.current_fan_pwms.getD i 0 > cfg.min_fan_pwm
        then max (s0.current_fan_pwms.getD i 0 - cfg.pwm_step) cfg.min_fan_pwm
        else s0.current_fan_pwms.getD i 0) ∧
    (s0.current_fan_pwms.getD i 0 = cfg.min_fan_pwm →
      ∀ v : Int, Write.fan i v ∉
        (decreaseFansLoop cfg (fun _ => true) s0 (List.range n)).2) := by
  have hnd := List.nodup_range n
  have hmem := List.mem_range.mpr hi
  have hlt : i < s0.current_fan_pwms.length := by omega
  have hget := decLoop_getD_mem cfg (fun _ => true) (List.range n) s0 i hnd hmem hlt
  have hwr := decLoop_writes cfg (fun _ => true) (List.range n) s0 hnd
  refine ⟨?_, ?_⟩
  · rw [hget]
    simp only [decStep]
    by_cases hc : s0.current_fan_pwms.getD i 0 > cfg.min_fan_pwm
    · rw [if_pos hc, if_pos hc, if_pos trivial]
      exact clampFan_of_inside cfg _ (by omega) (by omega)
    · rw [if_neg hc, if_neg hc]
  · intro hmin v hv
    rw [hwr] at hv
    obtain ⟨j, hj, hw⟩ := List.mem_filterMap.mp hv
    simp only [decWriteAt] at hw
    split at hw
    · rename_i hcond
      rw [Option.some.injEq, Write.fan.injEq] at hw
      obtain ⟨rfl, _⟩ := hw
      omega
    · exact absurd hw (by simp)

/-- C3: for `temp < temp_threshold - 10` every setpoint strictly above
its configured minimum is lowered to `max (cur - pwm_step) min)`, a
setpoint at its minimum is untouched and gets no write, and all
resulting setpoints are non-increasing and never below the minimums. -/
theorem decrease_branch (cfg : Config) (nFans : Nat) (s : CState) (temp : Int)
    (hT : temp < cfg.temp_threshold - 10)
    (hstep : 0 < cfg.pwm_step)
    (hpmin : cfg.min_pump_pwm ≤ s.current_pump_pwm)
    (hpmax : s.current_pump_pwm ≤ cfg.max_pump_pwm)
    (hfb : cfg.min_fan_pwm ≤ cfg.max_fan_pwm)
    (hlen : s.current_fan_pwms.length = nFans)
    (hfan : ∀ x ∈ s.current_fan_pwms, cfg.min_fan_pwm ≤ x ∧ x ≤ cfg.max_fan_pwm) :
    ((adjust_cooling cfg nFans true (fun _ => true) s temp).1.current_pump_pwm =
      if s.current_pump_pwm > cfg.min_pump_pwm
        then max (s.current_pump_pwm - cfg.pwm_step) cfg.min_pump_pwm
        else s.current_pump_pwm) ∧
    ((adjust_cooling cfg nFans true (fun _ => true) s temp).2.filter isPumpWrite =
      if s.current_pump_pwm > cfg.min_pump_pwm
        then [Write.pump (max (s.current_pump_pwm - cfg.pwm_step) cfg.min_pump_pwm)]
        else []) ∧
    (∀ i : Nat, i < nFans →
      (adjust_cooling cfg nFans true (fun _ => true) s temp).1.current_fan_pwms.getD i 0 =
        if s.current_fan_pwms.getD i 0 > cfg.min_fan_pwm
          then max (s.current_fan_pwms.getD i 0 - cfg.pwm_step) cfg.min_fan_pwm
          else s.current_fan_pwms.getD i 0) ∧
    (∀ i : Nat, i < nFans → s.current_fan_pwms.getD i 0 = cfg.min_fan_pwm →
      ∀ v : Int, Write.fan i v ∉
        (adjust_cooling cfg nFans true (fun _ => true) s temp).2) ∧
    ((adjust_cooling cfg nFans true (fun _ => true) s temp).1.current_pump_pwm ≤
        s.current_pump_pwm ∧
      cfg.min_pump_pwm ≤
        (adjust_cooling cfg nFans true (fun _ => true) s temp).1.current_pump_pwm) ∧
    (∀ i : Nat, i < nFans →
      (adjust_cooling cfg nFans true (fun _ => true) s temp).1.current_fan_pwms.getD i 0 ≤
          s.current_fan_pwms.getD i 0 ∧
        cfg.min_fan_pwm ≤
          (adjust_cooling cfg nFans true (fun _ => true) s temp).1.current_fan_pwms.getD
            i 0) := by
  have hTlt : ¬ temp > cfg.temp_threshold := by omega
  have hcuri : ∀ i : Nat, i < nFans →
      cfg.min_fan_pwm ≤ s.current_fan_pwms.getD i 0 ∧
        s.current_fan_pwms.getD i 0 ≤ cfg.max_fan_pwm := by
    intro i hi
    exact hfan _ (getD_mem_of_lt _ (by omega))
  simp only [adjust_cooling]
  rw [if_neg hTlt, if_pos (by omega)]
  have hfanEmpty : ∀ (s' : CState),
      (decreaseFansLoop cfg (fun _ => true) s' (List.range nFans)).2.filter
        isPumpWrite = [] := by
    intro s'
    rw [List.filter_eq_nil_iff]
    intro w hw
    simp [decLoop_no_pump_writes cfg (fun _ => true) (List.range nFans) s' w hw]
  by_cases hpgt : s.current_pump_pwm > cfg.min_pump_pwm
  · simp only [if_pos hpgt]
    have hcl : clampPump cfg (max (s.current_pump_pwm - cfg.pwm_step) cfg.min_pump_pwm) =
        max (s.current_pump_pwm - cfg.pwm_step) cfg.min_pump_pwm :=
      clampPump_of_inside cfg _ (by omega) (by omega)
    have hfansStart :
        (set_pump_pwm cfg s
            (max (s.current_pump_pwm - cfg.pwm_step) cfg.min_pump_pwm) true).1.current_fan_pwms =
          s.current_fan_pwms := set_pump_pwm_fans cfg s _ true
    have hA : (decreaseFansLoop cfg (fun _ => true)
        (set_pump_pwm cfg s
          (max (s.current_pump_pwm - cfg.pwm_step) cfg.min_pump_pwm) true).1
        (List.range nFans)).1.current_pump_pwm =
        max (s.current_pump_pwm - cfg.pwm_step) cfg.min_pump_pwm := by
      rw [decLoop_pump, set_pump_pwm_true]
      exact hcl
    have hFan : ∀ i : Nat, i < nFans →
        ((decreaseFansLoop cfg (fun _ => true)
          (set_pump_pwm cfg s
            (max (s.current_pump_pwm - cfg.pwm_step) cfg.min_pump_pwm) true).1
          (List.range nFans)).1.current_fan_pwms.getD i 0 =
          if s.current_fan_pwms.getD i 0 > cfg.min_fan_pwm
            then max (s.current_fan_pwms.getD i 0 - cfg.pwm_step) cfg.min_fan_pwm
            else s.current_fan_pwms.getD i 0) ∧
        (s.current_fan_pwms.getD i 0 = cfg.min_fan_pwm →
          ∀ v : Int, Write.fan i v ∉
            (decreaseFansLoop cfg (fun _ => true)
              (set_pump_pwm cfg s
                (max (s.current_pump_pwm - cfg.pwm_step) cfg.min_pump_pwm) true).1
              (List.range nFans)).2) := by
      intro i hi
      have := decLoop_range_claim cfg nFans
        (set_pump_pwm cfg s
          (max (s.current_pump_pwm - cfg.pwm_step) cfg.min_pump_pwm) true).1 i
        hstep hfb (by rw [hfansStart]; exact hlen) hi
        (by rw [hfansStart]; exact (hcuri i hi).1)
        (by rw [hfansStart]; exact (hcuri i hi).2)
      rw [hfansStart] at this
      exact this
    refine ⟨hA, ?_, fun i hi => (hFan i hi).1, ?_, ?_, ?_⟩
    · rw [List.filter_append, hfanEmpty, set_pump_pwm_true]
      simp [isPumpWrite, hcl]
    · intro i hi hmin v hv
      rcases List.mem_append.mp hv with hv' | hv'
      · rw [set_pump_pwm_true] at hv'
        exact absurd hv' (by simp)
      · exact (hFan i hi).2 hmin v hv'
    · rw [hA]
      constructor <;> omega
    · intro i hi
      rw [(hFan i hi).1]
      have := hcuri i hi
      by_cases hc : s.current_fan_pwms.getD i 0 > cfg.min_fan_pwm
      · rw [if_pos hc]
        constructor <;> omega
      · rw [if_neg hc]
        constructor <;> omega
  · simp only [if_neg hpgt]
    have hA : (decreaseFansLoop cfg (fun _ => true) (s, ([] : List Write)).1
        (List.range nFans)).1.current_pump_pwm = s.current_pump_pwm := by
      rw [decLoop_pump]
    have hFan : ∀ i : Nat, i < nFans →
        ((decreaseFansLoop cfg (fun _ => true) (s, ([] : List Write)).1
          (List.range nFans)).1.current_fan_pwms.getD i 0 =
          if s.current_fan_pwms.getD i 0 > cfg.min_fan_pwm
            then max (s.current_fan_pwms.getD i 0 - cfg.pwm_step) cfg.min_fan_pwm
            else s.current_fan_pwms.getD i 0) ∧
        (s.current_fan_pwms.getD i 0 = cfg.min_fan_pwm →
          ∀ v : Int, Write.fan i v ∉
            (decreaseFansLoop cfg (fun _ => true) (s, ([] : List Write)).1
              (List.range nFans)).2) := by
      intro i hi
      exact decLoop_range_claim cfg nFans s i hstep hfb hlen hi
        (hcuri i hi).1 (hcuri i hi).2
    refine ⟨hA, ?_, fun i hi => (hFan i hi).1, ?_, ?_, ?_⟩
    · rw [List.filter_append, hfanEmpty]
      rfl
    · intro i hi hmin v hv
      rcases List.mem_append.mp hv with hv' | hv'
      · exact absurd hv' (by simp)
      · exact (hFan i hi).2 hmin v hv'
    · rw [hA]
      constructor <;> omega
    · intro i hi
      rw [(hFan i hi).1]
      have := hcuri i hi
      by_cases hc : s.current_fan_pwms.getD i 0 > cfg.min_fan_pwm
      · rw [if_pos hc]
        constructor <;> omega
      · rw [if_neg hc]
        constructor <;> omega

/-- Witness for C3: Scenario C — threshold 70, temp 58, pump 140
(min 100) drops to `max(120, 100) = 120`; a fan at its minimum 80
stays and is not written. -/
theorem decrease_branch_witness :
    ((58 : Int) < 70 - 10 ∧ (0 : Int) < 20 ∧ (100 : Int) ≤ 140 ∧ (140 : Int) ≤ 255 ∧
      (80 : Int) ≤ 255 ∧ ([(80 : Int)].length = 1) ∧
      (∀ x ∈ [(80 : Int)], (80 : Int) ≤ x ∧ x ≤ 255)) ∧
    ((adjust_cooling ⟨70, 100, 255, 80, 255, 20⟩ 1 true (fun _ => true)
        ⟨140, [80]⟩ 58).1.current_pump_pwm =
      if (140 : Int) > 100 then max ((140 : Int) - 20) 100 else 140) ∧
    (adjust_cooling ⟨70, 100, 255, 80, 255, 20⟩ 1 true (fun _ => true)
      ⟨140, [80]⟩ 58).1 = ⟨120, [80]⟩ ∧
    (adjust_cooling ⟨70, 100, 255, 80, 255, 20⟩ 1 true (fun _ => true)
      ⟨140, [80]⟩ 58).2 = [Write.pump 120] :=
  ⟨by decide,
   (decrease_branch ⟨70, 100, 255, 80, 255, 20⟩ 1 ⟨140, [80]⟩ 58
      (by decide) (by decide) (by decide) (by decide) (by decide) (by decide)
      (by decide)).1,
   by decide, by decide⟩

/-- The invariant of §3 of the design: both stored setpoints lie
within their actuator's configured bounds. -/
def stateInRange (cfg : Config) (s : CState) : Prop :=
  (cfg.min_pump_pwm ≤ s.current_pump_pwm ∧ s.current_pump_pwm ≤ cfg.max_pump_pwm) ∧
  ∀ x ∈ s.current_fan_pwms, cfg.min_fan_pwm ≤ x ∧ x ≤ cfg.max_fan_pwm

instance (cfg : Config) (s : CState) : Decidable (stateInRange cfg s) := by
  unfold stateInRange
  infer_instance

/-- C5: assuming sane bounds, every value pushed to a duty-cycle
register by `set_pump_pwm` / `set_fan_pwm` — for any integer argument
— is first clamped into the configured `[min, max]`; afterwards the
stored setpoints are still in bounds, and a whole control tick both
writes only in-bounds values and preserves the in-bounds invariant of
the stored state. -/
theorem loop_writes_clamped (cfg : Config) (v : Int) (i : Nat) (ok : Bool)
    (s : CState) (temp : Option Int) (nFans : Nat) (pumpOk : Bool) (oks : Nat → Bool)
    (hpb : cfg.min_pump_pwm ≤ cfg.max_pump_pwm)
    (hfb : cfg.min_fan_pwm ≤ cfg.max_fan_pwm)
    (hs : stateInRange cfg s) :
    (cfg.min_pump_pwm ≤ (set_pump_pwm cfg s v ok).2 ∧
      (set_pump_pwm cfg s v ok).2 ≤ cfg.max_pump_pwm) ∧
    stateInRange cfg (set_pump_pwm cfg s v ok).1 ∧
    (cfg.min_fan_pwm ≤ (set_fan_pwm cfg s i v ok).2 ∧
      (set_fan_pwm cfg s i v ok).2 ≤ cfg.max_fan_pwm) ∧
    stateInRange cfg (set_fan_pwm cfg s i v ok).1 ∧
    (∀ w ∈ (control_tick cfg nFans pumpOk oks s temp).2, w.inBounds cfg) ∧
    stateInRange cfg (control_tick cfg nFans pumpOk oks s temp).1 := by
  have hPumpState : ∀ (s' : CState) (v' : Int) (ok' : Bool), stateInRange cfg s' →
      stateInRange cfg (set_pump_pwm cfg s' v' ok').1 := by
    intro s' v' ok' hs'
    cases ok'
    · exact hs'
    · exact ⟨clampPump_range cfg hpb v', hs'.2⟩
  have hFanState : ∀ (s' : CState) (i' : Nat) (v' : Int) (ok' : Bool),
      stateInRange cfg s' → stateInRange cfg (set_fan_pwm cfg s' i' v' ok').1 := by
    intro s' i' v' ok' hs'
    cases ok'
    · exact hs'
    · refine ⟨hs'.1, fun x hx => ?_⟩
      rcases List.mem_or_eq_of_mem_set hx with h | h
      · exact hs'.2 x h
      · rw [h]
        exact clampFan_range cfg hfb v'
  have hTick : ∀ (t : Int),
      (∀ w ∈ (adjust_cooling cfg nFans pumpOk oks s t).2, w.inBounds cfg) ∧
      stateInRange cfg (adjust_cooling cfg nFans pumpOk oks s t).1 := by
    intro t
    simp only [adjust_cooling]
    by_cases ht1 : t > cfg.temp_threshold
    · rw [if_pos ht1]
      by_cases hp : min (s.current_pump_pwm +
          (Int.fdiv (t - cfg.temp_threshold) 5 + 1) * cfg.pwm_step) cfg.max_pump_pwm >
          s.current_pump_pwm
      · simp only [if_pos hp]
        constructor
        · intro w hw
          rcases List.mem_append.mp hw with hw' | hw'
          · rw [List.mem_singleton.mp hw']
            exact clampPump_range cfg hpb _
          · exact incLoop_writes_range cfg _ oks hfb _ _ w hw'
        · refine ⟨?_, ?_⟩
          · rw [incLoop_pump]
            exact (hPumpState s _ pumpOk hs).1
          · exact incLoop_fans_range cfg _ oks hfb _ _ (hPumpState s _ pumpOk hs).2
      · simp only [if_neg hp]
        constructor
        · intro w hw
          rcases List.mem_append.mp hw with hw' | hw'
          · exact absurd hw' (List.not_mem_nil w)
          · exact incLoop_writes_range cfg _ oks hfb _ _ w hw'
        · refine ⟨?_, ?_⟩
          · rw [incLoop_pump]
            exact hs.1
          · exact incLoop_fans_range cfg _ oks hfb _ _ hs.2
    · rw [if_neg ht1]
      by_cases ht2 : t < cfg.temp_threshold - 10
      · rw [if_pos ht2]
        by_cases hp : s.current_pump_pwm > cfg.min_pump_pwm
        · simp only [if_pos hp]
          constructor
          · intro w hw
            rcases List.mem_append.mp hw with hw' | hw'
            · rw [List.mem_singleton.mp hw']
              exact clampPump_range cfg hpb _
            · exact decLoop_writes_range cfg oks hfb _ _ w hw'
          · refine ⟨?_, ?_⟩
            · rw [decLoop_pump]
              exact (hPumpState s _ pumpOk hs).1
            · exact decLoop_fans_range cfg oks hfb _ _ (hPumpState s _ pumpOk hs).2
        · simp only [if_neg hp]
          constructor
          · intro w hw
            rcases List.mem_append.mp hw with hw' | hw'
            · exact absurd hw' (List.not_mem_nil w)
            · exact decLoop_writes_range cfg oks hfb _ _ w hw'
          · refine ⟨?_, ?_⟩
            · rw [decLoop_pump]
              exact hs.1
            · exact decLoop_fans_range cfg oks hfb _ _ hs.2
      · rw [if_neg ht2]
        exact ⟨fun w hw => absurd hw (List.not_mem_nil w), hs⟩
  refine ⟨clampPump_range cfg hpb v, hPumpState s v ok hs,
    clampFan_range cfg hfb v, hFanState s i v ok hs, ?_, ?_⟩
  · cases temp with
    | none => exact fun w hw => absurd hw (List.not_mem_nil w)
    | some t => exact (hTick t).1
  · cases temp with
    | none => exact hs
    | some t => exact (hTick t).2

/-- Witness for C5 at a concrete out-of-range argument: writing 300 to
the pump (bounds 100–255) stores 255; a tick at temp 76 keeps state
and writes in bounds. -/
theorem loop_writes_clamped_witness :
    ((100 : Int) ≤ 255 ∧ (80 : Int) ≤ 255 ∧
      stateInRange ⟨70, 100, 255, 80, 255, 20⟩ ⟨100, [80]⟩) ∧
    (((100 : Int) ≤
        (set_pump_pwm ⟨70, 100, 255, 80, 255, 20⟩ ⟨100, [80]⟩ 300 true).2 ∧
      (set_pump_pwm ⟨70, 100, 255, 80, 255, 20⟩ ⟨100, [80]⟩ 300 true).2 ≤ 255) ∧
    stateInRange ⟨70, 100, 255, 80, 255, 20⟩
      (set_pump_pwm ⟨70, 100, 255, 80, 255, 20⟩ ⟨100, [80]⟩ 300 true).1 ∧
    (((80 : Int)) ≤
        (set_fan_pwm ⟨70, 100, 255, 80, 255, 20⟩ ⟨100, [80]⟩ 0 300 true).2 ∧
      (set_fan_pwm ⟨70, 100, 255, 80, 255, 20⟩ ⟨100, [80]⟩ 0 300 true).2 ≤ 255) ∧
    stateInRange ⟨70, 100, 255, 80, 255, 20⟩
      (set_fan_pwm ⟨70, 100, 255, 80, 255, 20⟩ ⟨100, [80]⟩ 0 300 true).1 ∧
    (∀ w ∈ (control_tick ⟨70, 100, 255, 80, 255, 20⟩ 1 true (fun _ => true)
        ⟨100, [80]⟩ (some 76)).2, w.inBounds ⟨70, 100, 255, 80, 255, 20⟩) ∧
    stateInRange ⟨70, 100, 255, 80, 255, 20⟩
      (control_tick ⟨70, 100, 255, 80, 255, 20⟩ 1 true (fun _ => true)
        ⟨100, [80]⟩ (some 76)).1) ∧
    (set_pump_pwm ⟨70, 100, 255, 80, 255, 20⟩ ⟨100, [80]⟩ 300 true).2 = 255 :=
  ⟨by decide,
   loop_writes_clamped ⟨70, 100, 255, 80, 255, 20⟩ 300 0 true ⟨100, [80]⟩
     (some 76) 1 true (fun _ => true) (by decide) (by decide) (by decide),
   by decide⟩

theorem restore_attempts (ok : Nat → Bool) :
    ∀ (settings : List (Nat × String)) (hw : Nat → String),
      (restore_original_settings ok hw settings).2 = settings.map Prod.fst := by
  intro settings
  induction settings with
  | nil => intro hw; rfl
  | cons e rest ih =>
    intro hw
    obtain ⟨d, v⟩ := e
    simp only [restore_original_settings, List.map_cons]
    rw [ih]

/-- C6: `get_gpu_temp` returns `None` on a query-tool failure; on a
successful query whose tokens all parse, it returns `None` exactly
when the reading set is empty and otherwise the maximum reading; a
`None` tick leaves the state untouched and writes nothing. -/
theorem get_gpu_temp_spec (stdout : String) (temps : List Int)
    (hp : (gpuTempTokens stdout).mapM (fun t => parsePyInt (pyStrip t)) = some temps) :
    (∀ e : Unit, get_gpu_temp (.error e) = .ok none) ∧
    (temps = [] → get_gpu_temp (.ok stdout) = .ok none) ∧
    (∀ m : Int, temps.max? = some m →
      get_gpu_temp (.ok stdout) = .ok (some m) ∧ m ∈ temps ∧ ∀ x ∈ temps, x ≤ m) ∧
    (∀ (cfg : Config) (nFans : Nat) (pumpOk : Bool) (oks : Nat → Bool) (s : CState),
      control_tick cfg nFans pumpOk oks s none = (s, [])) := by
  refine ⟨fun e => rfl, ?_, ?_, fun cfg nFans pumpOk oks s => rfl⟩
  · intro he
    simp only [get_gpu_temp]
    rw [hp, he]
    rfl
  · intro m hm
    have hspec := max?_spec temps m hm
    refine ⟨?_, hspec.1, hspec.2⟩
    have hne : temps.isEmpty = false := by
      cases temps with
      | nil => exact absurd hm (by simp)
      | cons a t => rfl
    simp only [get_gpu_temp]
    rw [hp]
    simp only [hne, Bool.false_eq_true, if_false]
    rw [hm]

/-- Witness for C6: stdout `"45\n52\n"` parses to readings `[45, 52]`
and the returned temperature is the maximum, 52. -/
theorem get_gpu_temp_spec_witness :
    ((gpuTempTokens "45\n52\n").mapM (fun t => parsePyInt (pyStrip t)) =
      some [45, 52]) ∧
    ((∀ e : Unit, get_gpu_temp (.error e) = .ok none) ∧
     (([45, 52] : List Int) = [] → get_gpu_temp (.ok "45\n52\n") = .ok none) ∧
     (∀ m : Int, ([45, 52] : List Int).max? = some m →
       get_gpu_temp (.ok "45\n52\n") = .ok (some m) ∧
         m ∈ ([45, 52] : List Int) ∧ ∀ x ∈ ([45, 52] : List Int), x ≤ m) ∧
     (∀ (cfg : Config) (nFans : Nat) (pumpOk : Bool) (oks : Nat → Bool) (s : CState),
       control_tick cfg nFans pumpOk oks s none = (s, []))) ∧
    get_gpu_temp (.ok "45\n52\n") = .ok (some 52) :=
  ⟨by decide, get_gpu_temp_spec "45\n52\n" [45, 52] (by decide), by decide⟩

/-- C10: a successful query output holding a non-empty token that is
not a valid integer (here `"N/A"`) makes `get_gpu_temp` raise
`ValueError` from `int(...)` — its handler only catches
`CalledProcessError` — rather than return a reading or `None`. -/
theorem get_gpu_temp_nonint_raises :
    get_gpu_temp (.ok "N/A") = .error .valueError ∧
    pyStrip "N/A".toList ≠ [] ∧
    parsePyInt (pyStrip "N/A".toList) = none := by decide

/-- Counterexample to C7: the whole body of
`backup_original_settings` sits in one `try`, so when the pump
register (device 0) fails to read, the readable fan register
(device 1) is not captured either — the claim that capture continues
with the remaining actuators is false. -/
theorem backup_abort_cex :
    (fun d => if d = 0 then none else some "100") 1 = some "100" ∧
    (1 : Nat) ∈ readOrder ⟨0, none, [(1, none)]⟩ ∧
    backup_original_settings (fun d => if d = 0 then none else some "100")
      ⟨0, none, [(1, none)]⟩ = [] := by decide

/-- C7 (amended): an `IOError` during snapshot capture aborts the
loop; the snapshot that results is exactly the prefix of registers
(in capture order) read successfully before the first failure. -/
theorem backup_prefix_semantics (read : Nat → Option String) (d : Devices) :
    backup_original_settings read d =
      ((readOrder d).takeWhile (fun x => (read x).isSome)).filterMap
        (fun x => (read x).map (fun v => (x, v))) :=
  captureReads_upto_failure read (readOrder d)

/-- C8: `restore_original_settings` attempts a write for every
captured entry regardless of which writes fail (each write has its
own `try`), and the resulting register state gives each successfully
written device its last snapshot value while failed or uncaptured
devices keep their prior contents — for every snapshot and every
failure pattern.  The function is total: no error escapes to
`stop()`. -/
theorem restore_best_effort (ok : Nat → Bool) (hw : Nat → String)
    (settings : List (Nat × String)) :
    ((restore_original_settings ok hw settings).2 = settings.map Prod.fst) ∧
    (∀ dev : Nat, (restore_original_settings ok hw settings).1 dev =
      if ok dev then (lastVal settings dev).getD (hw dev) else hw dev) :=
  ⟨restore_attempts ok settings hw, restore_effect ok settings hw⟩

/-- C9: `stop()` is idempotent — a second invocation leaves the
controller state (`running`, snapshot) and the restored hardware
registers exactly as the first one did, and it cannot fail (the model
is a total function because restore swallows per-entry errors). -/
theorem stop_idempotent (ok : Nat → Bool) (s : LoopState) (hw : Nat → String) :
    stop ok (stop ok s hw).1 (stop ok s hw).2 = stop ok s hw ∧
    (stop ok s hw).1.original_settings = s.original_settings ∧
    (stop ok s hw).1.running = false := by
  refine ⟨?_, rfl, rfl⟩
  simp only [stop]
  have h2 : (restore_original_settings ok
      (restore_original_settings ok hw s.original_settings).1 s.original_settings).1 =
      (restore_original_settings ok hw s.original_settings).1 := by
    funext dev
    simp only [restore_effect ok]
    by_cases hok : ok dev = true
    · simp only [if_pos hok]
      cases hlv : lastVal s.original_settings dev <;> simp [hlv]
    · simp only [if_neg hok]
  exact congrArg₂ Prod.mk rfl h2

end AIO
